import Mathlib

/-!
Verification of the Toyota news scraper (src/news_scraper.py).

The HTML documents handled by the scraper are modelled as finite trees of
element and text nodes (the shape BeautifulSoup exposes).  Positions inside a
document are paths of child indices; document order is preorder traversal,
which is exactly the order BeautifulSoup uses for find_all, find_next and
the descendants iterator.  Python strings are modelled as Lean strings
(sequences of code points), Python string slicing and length agree with
String.take and String.length on these.  The regular expression DATE_RE is
modelled by an explicit backtracking matcher that follows the Python re
semantics for this particular pattern: leftmost start position, alternatives
tried in order, greedy optional pieces, ASCII word characters for the word
boundary anchors.
-/

namespace Scraper

/-- An HTML node: an element with a tag name, attribute list and children,
or a text node. This is the tree BeautifulSoup builds for a document; the
root node plays the role of the soup object itself. -/
inductive HNode where
  | elem (tag : String) (attrs : List (String × String)) (children : List HNode)
  | text (s : String)

/-- A position in a document: the list of child indices from the root. -/
abbrev Path := List Nat

mutual

/-- All text-node contents of the subtree, in document order
(BeautifulSoup `strings` / the string list used by get_text). -/
def HNode.strings : HNode → List String
  | .text s => [s]
  | .elem _ _ cs => stringsList cs

def stringsList : List HNode → List String
  | [] => []
  | c :: cs => c.strings ++ stringsList cs

end

mutual

/-- All positions of the subtree in preorder, i.e. in document order.
The first entry is the empty path (the subtree root itself). -/
def HNode.positions : HNode → List Path
  | .text _ => [[]]
  | .elem _ _ cs => [] :: positionsList 0 cs

def positionsList : Nat → List HNode → List Path
  | _, [] => []
  | i, c :: cs => (c.positions.map fun q => i :: q) ++ positionsList (i + 1) cs

end

/-- Node at a path, if the path is valid. -/
def HNode.get? : HNode → Path → Option HNode
  | n, [] => some n
  | .text _, _ :: _ => none
  | .elem _ _ cs, i :: q =>
    match cs[i]? with
    | some c => c.get? q
    | none => none

/-- The structural parent of a position (`.parent` in BeautifulSoup);
the root has no parent. -/
def parentPath : Path → Option Path
  | [] => none
  | q => some q.dropLast

def isElemAt (doc : HNode) (p : Path) : Bool :=
  match doc.get? p with
  | some (.elem _ _ _) => true
  | _ => false

def tagAt (doc : HNode) (p : Path) : Option String :=
  match doc.get? p with
  | some (.elem t _ _) => some t
  | _ => none

/-- Attribute lookup on the element at a path (first binding wins, as the
HTML parser keeps the first occurrence of a duplicated attribute). -/
def attrValue (doc : HNode) (p : Path) (key : String) : Option String :=
  match doc.get? p with
  | some (.elem _ attrs _) => (attrs.find? fun kv => kv.1 == key).map fun kv => kv.2
  | _ => none

def textAt (doc : HNode) (p : Path) : Option String :=
  match doc.get? p with
  | some (.text s) => some s
  | _ => none

def stringsAt (doc : HNode) (p : Path) : List String :=
  match doc.get? p with
  | some n => n.strings
  | none => []

/-- The characters Python treats as whitespace in str.strip and in the
regex class backslash-s (ASCII range; the scraped pages are ASCII). -/
def isPySpace (c : Char) : Bool :=
  c == ' ' || c == '\t' || c == '\n' || c == '\r' || c == '\x0b' || c == '\x0c'

/-- Python str.strip(): drop whitespace from both ends. -/
def pyStrip (s : String) : String :=
  String.mk (((s.data.dropWhile isPySpace).reverse.dropWhile isPySpace).reverse)

/-- BeautifulSoup get_text(" ", strip=True): strip every descendant string,
drop the ones that become empty, join with a single space. -/
def getTextSep (doc : HNode) (p : Path) : String :=
  String.intercalate " " (((stringsAt doc p).map pyStrip).filter fun t => t != "")

/-- BeautifulSoup get_text() with no arguments: concatenate all descendant
strings unchanged. -/
def getTextRaw (doc : HNode) (p : Path) : String :=
  String.join (stringsAt doc p)

/-- Strict descendants of a position, in document order. -/
def descendantsOf (doc : HNode) (p : Path) : List Path :=
  match doc.get? p with
  | some n => (n.positions.drop 1).map fun q => p ++ q
  | none => []

/-- BeautifulSoup find with a predicate: first strict descendant matching. -/
def findDesc (doc : HNode) (p : Path) (pred : Path → Bool) : Option Path :=
  (descendantsOf doc p).find? pred

/-- All positions strictly after p in document order
(BeautifulSoup next_elements). -/
def positionsAfter (doc : HNode) (p : Path) : List Path :=
  (doc.positions.dropWhile fun q => q != p).drop 1

/-- The element positions strictly after p in document order; find_next()
with no arguments steps through exactly this list. -/
def elemsAfter (doc : HNode) (p : Path) : List Path :=
  (positionsAfter doc p).filter (isElemAt doc)

def isTag (doc : HNode) (p : Path) (t : String) : Bool := tagAt doc p == some t

def hasAttr (doc : HNode) (p : Path) (k : String) : Bool := (attrValue doc p k).isSome

/-- An a element that has an href attribute (find with href=True). -/
def aHref (doc : HNode) (p : Path) : Bool := isTag doc p "a" && hasAttr doc p "href"

/-- Attribute present with a truthy (non-empty) value, the Python test
`tag.get(k)` used inside an if condition. -/
def truthyAttr (doc : HNode) (p : Path) (k : String) : Bool :=
  match attrValue doc p k with
  | some v => v != ""
  | none => false

/-- An a element whose href value is truthy, the test of the forward walk. -/
def aHrefTruthy (doc : HNode) (p : Path) : Bool :=
  isTag doc p "a" && truthyAttr doc p "href"

/-! ### The DATE_RE regular expression

DATE_RE is, verbatim from the source:
word-boundary, a month alternation
(Jan(uary)? | Feb(ruary)? | Mar(ch)? | Apr(il)? | May | Jun(e)? | Jul(y)? |
 Aug(ust)? | Sep(t(ember)?)? | Oct(ober)? | Nov(ember)? | Dec(ember)?),
one or more spaces, one or two digits, an optional comma, one or more
spaces, four digits, word-boundary; compiled with IGNORECASE.
Each month alternative with its greedy optional suffixes expands to the
spellings tried in this order. -/

def monthAlts : List (List String) :=
  [["january", "jan"], ["february", "feb"], ["march", "mar"], ["april", "apr"],
   ["may"], ["june", "jun"], ["july", "jul"], ["august", "aug"],
   ["september", "sept", "sep"], ["october", "oct"], ["november", "nov"],
   ["december", "dec"]]

/-- Case-insensitive literal prefix match, returning the rest of the input. -/
def stripPrefixCI : List Char → List Char → Option (List Char)
  | [], s => some s
  | _ :: _, [] => none
  | p :: ps, c :: cs => if p.toLower == c.toLower then stripPrefixCI ps cs else none

/-- All ways the month alternation can match at the start of the input, as
the remaining suffixes, in the preference order of the Python engine. -/
def monthMatches (s : List Char) : List (List Char) :=
  ((monthAlts.map fun alts => alts.filterMap fun m => stripPrefixCI m.data s)).flatten

/-- ASCII word character, the regex class backslash-w. -/
def isWordChar (c : Char) : Bool := c.isAlphanum || c == '_'

/-- All ways one-or-more-spaces can match, longest first (greedy). -/
def spacePlus (s : List Char) : List (List Char) :=
  let k := (s.takeWhile isPySpace).length
  (List.range k).map fun i => s.drop (k - i)

/-- All ways one-or-two-digits can match, two digits first (greedy). -/
def dayMatches (s : List Char) : List (List Char) :=
  match s with
  | c1 :: c2 :: rest =>
    if c1.isDigit && c2.isDigit then [rest, c2 :: rest]
    else if c1.isDigit then [c2 :: rest] else []
  | [c1] => if c1.isDigit then [[]] else []
  | [] => []

/-- The optional comma, taking it first (greedy). -/
def commaOpt (s : List Char) : List (List Char) :=
  match s with
  | ',' :: rest => [rest, ',' :: rest]
  | _ => [s]

/-- Exactly four digits. -/
def yearMatch (s : List Char) : Option (List Char) :=
  match s with
  | a :: b :: c :: d :: rest =>
    if a.isDigit && b.isDigit && c.isDigit && d.isDigit then some rest else none
  | _ => none

/-- The closing word boundary: the previous character is always a digit,
so the boundary holds iff the input ends or continues with a non-word
character. -/
def endBoundary : List Char → Bool
  | [] => true
  | c :: _ => !(isWordChar c)

/-- Try to match DATE_RE at the start of the input (the opening word
boundary is checked by the caller); returns the suffix after the match. -/
def dateMatchAt (s : List Char) : Option (List Char) :=
  (monthMatches s).findSome? fun s1 =>
  (spacePlus s1).findSome? fun s2 =>
  (dayMatches s2).findSome? fun s3 =>
  (commaOpt s3).findSome? fun s4 =>
  (spacePlus s4).findSome? fun s5 =>
  match yearMatch s5 with
  | some s6 => if endBoundary s6 then some s6 else none
  | none => none

/-- Scan left to right for the first start position where DATE_RE matches,
carrying the previous character for the word-boundary test; returns
group(0) of the first match (re.search semantics). -/
def dateSearchFrom (prev : Option Char) (s : List Char) : Option String :=
  let boundary :=
    match prev with
    | none => true
    | some c => !(isWordChar c)
  match (if boundary then dateMatchAt s else none) with
  | some rest => some (String.mk (s.take (s.length - rest.length)))
  | none =>
    match s with
    | [] => none
    | c :: cs => dateSearchFrom (some c) cs

/-- DATE_RE.search: the first match of the date pattern in the string. -/
def dateSearch (s : String) : Option String := dateSearchFrom none s.data

/-! ### norm_url -/

/-- Python str.startswith. -/
def pyStartsWith (s pre : String) : Bool := pre.data.isPrefixOf s.data

/-- The module constant BASE_URL. -/
def BASE_URL : String := "https://media.toyota.ca"

/-- norm_url from the source: strip the href, then resolve it by cases. -/
def norm_url (href : String) : String :=
  let href := pyStrip href
  if pyStartsWith href "//" then "https:" ++ href
  else if pyStartsWith href "/" then BASE_URL ++ href
  else if pyStartsWith href "http" then href
  else BASE_URL ++ "/" ++ href

/-- The resolution cascade as worded by the specification (section 4.1),
stated on an href with no surrounding whitespace; used to compare the
source function against the specification text. -/
def normCascadeSpec (h : String) : String :=
  if pyStartsWith h "//" then "https:" ++ h
  else if pyStartsWith h "/" then BASE_URL ++ h
  else if pyStartsWith h "http" then h
  else BASE_URL ++ "/" ++ h

/-! ### Method 1: extract_release_links_by_date -/

/-- A discovered candidate: (date_text, title, absolute url). -/
abbrev Triple := String × String × String

/-- The text nodes of the document matching DATE_RE, in document order
(soup.find_all(string=DATE_RE)). -/
def dateTextNodes (doc : HNode) : List Path :=
  doc.positions.filter fun p =>
    match textAt doc p with
    | some s => (dateSearch s).isSome
    | none => false

/-- Step a of the link search: parent.find(a, href=True). -/
def parentLink (doc : HNode) (par : Path) : Option Path :=
  findDesc doc par (aHref doc)

/-- Step b of the link search: the forward walk, examining the first 6
elements after the parent in document order and taking the first a element
with a truthy href. -/
def forwardLink (doc : HNode) (par : Path) : Option Path :=
  ((elemsAfter doc par).take 6).find? (aHrefTruthy doc)

/-- Step c of the link search: parent.parent.find(a, href=True), when the
grandparent exists. -/
def grandLink (doc : HNode) (par : Path) : Option Path :=
  match parentPath par with
  | some gp => findDesc doc gp (aHref doc)
  | none => none

/-- The full link search of Method 1 (lines 89 to 104 of the source):
step a, then step b, then step c. -/
def findLink (doc : HNode) (par : Path) : Option Path :=
  match parentLink doc par with
  | some l => some l
  | none =>
    match forwardLink doc par with
    | some l => some l
    | none => grandLink doc par

/-- link.get(href) on the found link (the attribute is present for every
link the search can return). -/
def hrefOf (doc : HNode) (l : Path) : String := (attrValue doc l "href").getD ""

/-- A heading element of level 1 to 4. -/
def isHeading14 (doc : HNode) (p : Path) : Bool :=
  match tagAt doc p with
  | some t => t == "h1" || t == "h2" || t == "h3" || t == "h4"
  | none => false

/-- Title derivation of Method 1 (lines 111 to 117): the visible text of
the link; if empty or shorter than 5, the text of the first h1-h4
descendant of the parent of the date node; none if still empty or shorter
than 5 (the candidate is discarded). -/
def titleFor (doc : HNode) (par l : Path) : Option String :=
  let t0 := getTextSep doc l
  let t1 :=
    if t0 == "" || t0.length < 5 then
      match findDesc doc par (isHeading14 doc) with
      | some h => getTextSep doc h
      | none => t0
    else t0
  if t1 == "" || t1.length < 5 then none else some t1

/-- The loop of extract_release_links_by_date over the date text nodes,
carrying the results list and the seen set (modelled as a list). -/
def pass1Go (doc : HNode) (limit : Int) :
    List Path → List Triple → List String → List Triple × List String
  | [], results, seen => (results, seen)
  | p :: rest, results, seen =>
    match textAt doc p with
    | none => pass1Go doc limit rest results seen
    | some s =>
      match dateSearch s with
      | none => pass1Go doc limit rest results seen
      | some m =>
        match parentPath p with
        | none => pass1Go doc limit rest results seen
        | some par =>
          match findLink doc par with
          | none => pass1Go doc limit rest results seen
          | some l =>
            let full := norm_url (pyStrip (hrefOf doc l))
            if full ∈ seen then pass1Go doc limit rest results seen
            else
              match titleFor doc par l with
              | none => pass1Go doc limit rest results seen
              | some title =>
                let results2 := results ++ [(pyStrip m, title, full)]
                let seen2 := seen ++ [full]
                if limit ≤ (results2.length : Int) then (results2, seen2)
                else pass1Go doc limit rest results2 seen2

/-- extract_release_links_by_date: Method 1, returning the results and the
seen set. -/
def extract_release_links_by_date (doc : HNode) (limit : Int) :
    List Triple × List String :=
  pass1Go doc limit (dateTextNodes doc) [] []

/-! ### Method 2: extract_all_release_links -/

/-- Substring test (Python `in` / re.search of a literal). -/
def containsSub (pat : List Char) : List Char → Bool
  | [] => pat == ([] : List Char)
  | c :: cs => pat.isPrefixOf (c :: cs) || containsSub pat cs

/-- An a element whose href matches the release pattern
/releases/(2024|2025)/ somewhere in its value. -/
def releaseHref (doc : HNode) (p : Path) : Bool :=
  isTag doc p "a" &&
    match attrValue doc p "href" with
    | some v =>
      containsSub "/releases/2024/".data v.data || containsSub "/releases/2025/".data v.data
    | none => false

/-- soup.find_all(a, href=releases-pattern), in document order. -/
def releaseLinks (doc : HNode) : List Path := doc.positions.filter (releaseHref doc)

/-- Heading, bold or strong-emphasis element (the Method 2 heading list). -/
def isHeadingLoose (doc : HNode) (p : Path) : Bool :=
  match tagAt doc p with
  | some t =>
    t == "h1" || t == "h2" || t == "h3" || t == "h4" || t == "h5" || t == "h6" ||
      t == "strong" || t == "b"
  | none => false

/-- The ancestor climb of Method 2 looking for a heading with text of
length at least 5 (lines 167 to 177): up to 4 levels, starting at the
parent of the link; keeps the current title when nothing qualifies. -/
def headingClimb (doc : HNode) : Option Path → Nat → String → String
  | _, 0, title => title
  | none, _ + 1, title => title
  | some par, k + 1, title =>
    match findDesc doc par (isHeadingLoose doc) with
    | some h =>
      let pot := getTextSep doc h
      if 5 ≤ pot.length then pot
      else headingClimb doc (parentPath par) k title
    | none => headingClimb doc (parentPath par) k title

/-- Python str.replace with fuel (the fuel is the input length, which
bounds the number of scanning steps; the patterns used are non-empty). -/
def pyReplaceFuel (pat rep : List Char) : Nat → List Char → List Char
  | _, [] => []
  | 0, s => s
  | n + 1, c :: cs =>
    if pat.isPrefixOf (c :: cs) then rep ++ pyReplaceFuel pat rep n ((c :: cs).drop pat.length)
    else c :: pyReplaceFuel pat rep n cs

/-- Python str.replace: replace every occurrence, left to right. -/
def pyReplace (s pat rep : String) : String :=
  String.mk (pyReplaceFuel pat.data rep.data s.data.length s.data)

/-- Python str.title: uppercase every letter that follows a non-letter,
lowercase the other letters. -/
def pyTitleGo : Bool → List Char → List Char
  | _, [] => []
  | prevCased, c :: cs =>
    if c.isAlpha then
      (if prevCased then c.toLower else c.toUpper) :: pyTitleGo true cs
    else c :: pyTitleGo false cs

def pyTitle (s : String) : String := String.mk (pyTitleGo false s.data)

/-- Python str.split on a single character, keeping empty parts. -/
def splitChar (sep : Char) : List Char → List (List Char)
  | [] => [[]]
  | c :: cs =>
    let r := splitChar sep cs
    if c == sep then [] :: r
    else
      match r with
      | h :: t => (c :: h) :: t
      | [] => [[c]]

def pySplit (s : String) (sep : Char) : List String :=
  (splitChar sep s.data).map String.mk

/-- The slug fallback of Method 2 (lines 180 to 186): last path segment of
the url, drop .html, hyphens to spaces, title case; taken when it has
length at least 5. -/
def slugTitle (full title : String) : String :=
  let parts := pySplit full '/'
  if 0 < parts.length then
    let slug := pyTitle (pyReplace (pyReplace (parts.getLastD "") ".html" "") "-" " ")
    if 5 ≤ slug.length then slug else title
  else title

/-- The date climb of Method 2 (lines 192 to 201): search the raw text of
up to 4 ancestor levels for a DATE_RE match; the sentinel Recent when none
is found. -/
def dateClimb (doc : HNode) : Option Path → Nat → String
  | _, 0 => "Recent"
  | none, _ + 1 => "Recent"
  | some par, k + 1 =>
    match dateSearch (getTextRaw doc par) with
    | some m => pyStrip m
    | none => dateClimb doc (parentPath par) k

/-- The title cascade of Method 2 (lines 154 to 186): link text, then the
parent text when longer, then the heading climb, then the url slug. -/
def pass2Title (doc : HNode) (l : Path) (full : String) : String :=
  let t0 := getTextSep doc l
  let t1 :=
    if t0 == "" || t0.length < 5 then
      match parentPath l with
      | some par =>
        let pt := getTextSep doc par
        if pt != "" && t0.length < pt.length then pt else t0
      | none => t0
    else t0
  let t2 := if t1 == "" || t1.length < 5 then headingClimb doc (parentPath l) 4 t1 else t1
  if t2 == "" || t2.length < 5 then slugTitle full t2 else t2

/-- The loop of extract_all_release_links over the release links,
carrying the results and the seen set it extends. -/
def pass2Go (doc : HNode) (limit : Int) :
    List Path → List Triple → List String → List Triple × List String
  | [], results, seen => (results, seen)
  | l :: rest, results, seen =>
    if limit ≤ (results.length : Int) then (results, seen)
    else
      let href := pyStrip (hrefOf doc l)
      if href == "" then pass2Go doc limit rest results seen
      else
        let full := norm_url href
        if full ∈ seen then pass2Go doc limit rest results seen
        else
          let title := pass2Title doc l full
          if title == "" || title.length < 5 then pass2Go doc limit rest results seen
          else
            let date := dateClimb doc (parentPath l) 4
            pass2Go doc limit rest (results ++ [(date, title, full)]) (seen ++ [full])

/-- extract_all_release_links: Method 2 over the release links, given the
set of urls already claimed; returns its results and the extended set. -/
def extract_all_release_links (doc : HNode) (seen : List String) (limit : Int) :
    List Triple × List String :=
  pass2Go doc limit (releaseLinks doc) [] seen

/-! ### fetch_article_details (the detail-page enricher) -/

/-- soup.find(meta, property=og:image): first meta element whose property
attribute equals og:image. -/
def findMetaOg (doc : HNode) : Option Path :=
  doc.positions.find? fun p =>
    isTag doc p "meta" && (attrValue doc p "property" == some "og:image")

/-- Whitespace-separated tokens of an attribute value (HTML class list). -/
def splitWsGo : List Char → List Char → List (List Char)
  | acc, [] => if acc == ([] : List Char) then [] else [acc.reverse]
  | acc, c :: cs =>
    if isPySpace c then
      if acc == ([] : List Char) then splitWsGo [] cs
      else acc.reverse :: splitWsGo [] cs
    else splitWsGo (c :: acc) cs

def classList (doc : HNode) (p : Path) : List String :=
  match attrValue doc p "class" with
  | some v => (splitWsGo [] v.data).map String.mk
  | none => []

/-- CSS class selector test. -/
def hasClass (doc : HNode) (p : Path) (c : String) : Bool :=
  (classList doc p).contains c

/-- All strict ancestors of a position (proper prefixes of the path). -/
def strictPrefixes (q : Path) : List Path :=
  (List.range q.length).map fun k => q.take k

def hasAncestorP (_doc : HNode) (q : Path) (pred : Path → Bool) : Bool :=
  (strictPrefixes q).any pred

/-- CSS descendant selector X p: the p elements having an ancestor
matching the given predicate, in document order. -/
def selectPUnder (doc : HNode) (ancPred : Path → Bool) : List Path :=
  doc.positions.filter fun q => isTag doc q "p" && hasAncestorP doc q ancPred

/-- soup.find_all(p): every p element in document order. -/
def allP (doc : HNode) : List Path :=
  doc.positions.filter fun q => isTag doc q "p"

/-- The paragraph-set cascade of the enricher (lines 53 to 56): article p,
else .entry-content p, else .release p, else all p elements; Python `or`
takes the first non-empty list. -/
def descCandidates (doc : HNode) : List Path :=
  let c1 := selectPUnder doc fun a => isTag doc a "article"
  if c1 != [] then c1
  else
    let c2 := selectPUnder doc fun a => hasClass doc a "entry-content"
    if c2 != [] then c2
    else
      let c3 := selectPUnder doc fun a => hasClass doc a "release"
      if c3 != [] then c3
      else allP doc

/-- First paragraph text of length at least 60 (the first description
loop, lines 57 to 61); empty when none qualifies. -/
def firstLongText : List String → String
  | [] => ""
  | t :: ts => if 60 ≤ t.length then t else firstLongText ts

/-- First non-empty paragraph text (the second description loop, lines 62
to 67); empty when none exists. -/
def firstNonemptyText : List String → String
  | [] => ""
  | t :: ts => if t != "" then t else firstNonemptyText ts

/-- The description selection of the enricher. -/
def descOf (doc : HNode) : String :=
  let texts := (descCandidates doc).map (getTextSep doc)
  let d1 := firstLongText texts
  if d1 == "" then firstNonemptyText texts else d1

/-- The selector of the image fallback, article img, .release img, img:
select_one takes the first element in document order matching any
alternative. -/
def imgSelector (doc : HNode) (q : Path) : Bool :=
  (isTag doc q "img" && hasAncestorP doc q fun a => isTag doc a "article") ||
  (isTag doc q "img" && hasAncestorP doc q fun a => hasClass doc a "release") ||
  isTag doc q "img"

def selectOneImg (doc : HNode) : Option Path := doc.positions.find? (imgSelector doc)

/-- The image selection of the enricher (lines 37 to 49): the og:image
content when present and truthy, else the src of the first matching img,
normalized when non-empty. -/
def imageOf (doc : HNode) : String :=
  let img0 :=
    match findMetaOg doc with
    | some q =>
      match attrValue doc q "content" with
      | some c => if c != "" then pyStrip c else ""
      | none => ""
    | none => ""
  let img1 :=
    if img0 == "" then
      match selectOneImg doc with
      | some q =>
        match attrValue doc q "src" with
        | some v => if v != "" then pyStrip v else ""
        | none => ""
      | none => ""
    else img0
  if img1 != "" then norm_url img1 else img1

/-- fetch_article_details: the fetched page is an oracle value; any fetch
or parse failure is the none case and yields a pair of empty strings (the
except branch); a fetched page yields the image and description
extraction of the try branch. -/
def fetch_article_details (page : Option HNode) : String × String :=
  match page with
  | none => ("", "")
  | some doc => (imageOf doc, descOf doc)

/-! ### fetch_toyota_news (the orchestrator) -/

/-- One article record of the output document. -/
structure Article where
  date : String
  title : String
  description : String
  image_url : String
  url : String
deriving DecidableEq

/-- The output document. -/
structure RunResult where
  source : String
  fetched_at : String
  articles : List Article
deriving DecidableEq

/-- Lines 221 to 227: Method 1, then Method 2 for the missing count when
Method 1 returned fewer than the limit, passing along the seen set. -/
def articleLinks (doc : HNode) (limit : Int) : List Triple :=
  let r1 := extract_release_links_by_date doc limit
  if (r1.1.length : Int) < limit then
    r1.1 ++ (extract_all_release_links doc r1.2 (limit - r1.1.length)).1
  else r1.1

/-- Lines 240 to 249: one output item from a candidate, enriching through
the page oracle; the description is truncated to 600 characters, or the
empty string when the enricher found none. -/
def mkItem (fetchPage : String → Option HNode) (t : Triple) : Article :=
  let r := fetch_article_details (fetchPage t.2.2)
  { date := t.1, title := t.2.1,
    description := if r.2 != "" then r.2.take 600 else "",
    image_url := r.1, url := t.2.2 }

/-- fetch_toyota_news with the network modelled as an oracle from urls to
fetched pages (none is a failed fetch) and the timestamp as an input. -/
def fetch_toyota_news (fetchPage : String → Option HNode) (doc : HNode) (limit : Int)
    (now : String) : RunResult :=
  { source := "Toyota Canada Media", fetched_at := now,
    articles := (articleLinks doc limit).map (mkItem fetchPage) }

/-! ### Concrete documents used to instantiate the theorems -/

/-- A small listing page: one dated release link. -/
def docW : HNode :=
  .elem "[document]" [] [.elem "div" []
    [.elem "p" [] [.text "March 3, 2024"],
     .elem "a" [("href", "/releases/2024/x.html")] [.text "Toyota Launches New Model"]]]

/-- A page with a date mention but no hyperlink anywhere. -/
def docNoLink : HNode :=
  .elem "[document]" [] [.elem "div" [] [.text "March 3, 2024"]]

/-- A page with an undated release link. -/
def doc9 : HNode :=
  .elem "[document]" [] [.elem "div" []
    [.elem "a" [("href", "/releases/2025/abc.html")] [.text "Some Great Title Here"]]]

/-- A 45 character paragraph text. -/
def s45 : String := String.mk (List.replicate 45 'a')

/-- An 80 character paragraph text. -/
def s80 : String := String.mk (List.replicate 80 'b')

/-- A detail page whose first paragraph has 45 characters and whose second
has 80 characters. -/
def docP : HNode :=
  .elem "[document]" [] [.elem "article" []
    [.elem "p" [] [.text s45], .elem "p" [] [.text s80]]]

/-- A network oracle whose every page is empty: fetches succeed but hold
no image and no paragraph. -/
def oracleC5 : String → Option HNode := fun _ => some (.elem "[document]" [] [])

/-- A network oracle whose every fetch fails. -/
def failOracle : String → Option HNode := fun _ => none

/-- The single article assembled from docW under the empty-page oracle. -/
def articleW : Article :=
  { date := "March 3, 2024", title := "Toyota Launches New Model",
    description := "", image_url := "",
    url := "https://media.toyota.ca/releases/2024/x.html" }

/-- The candidate Method 1 discovers on docW. -/
def tripleW : Triple :=
  ("March 3, 2024", "Toyota Launches New Model",
   "https://media.toyota.ca/releases/2024/x.html")

/-- The candidate the fallback pass produces on doc9. -/
def triple9 : Triple :=
  ("Recent", "Some Great Title Here", "https://media.toyota.ca/releases/2025/abc.html")

/-- Whether a date node makes Method 1 emit a candidate when its url is
not yet claimed: the node is a text node with a DATE_RE match, it has a
parent, the link search succeeds and the title derivation succeeds. -/
def emitsFresh (doc : HNode) (p : Path) : Bool :=
  match textAt doc p with
  | none => false
  | some s =>
    match dateSearch s with
    | none => false
    | some _ =>
      match parentPath p with
      | none => false
      | some par =>
        match findLink doc par with
        | none => false
        | some l => (titleFor doc par l).isSome

/-! ### C7: the date-text detector -/

/-- C7: the date detector finds "March 3, 2024" inside a longer sentence,
finds nothing in a string with no date, matches the calendar-invalid
"Feb 30, 2024", matches case-insensitively, and respects the word
boundary (no match when the month name is glued to a preceding word
character). -/
theorem C7_date_detector :
    dateSearch "Released on March 3, 2024 in Toronto" = some "March 3, 2024" ∧
    dateSearch "no date here" = none ∧
    (dateSearch "Feb 30, 2024").isSome = true ∧
    dateSearch "released on march 3, 2024 in toronto" = some "march 3, 2024" ∧
    dateSearch "xMarch 3, 2024" = none := by
  refine ⟨by decide, by decide, by decide, by decide, by decide⟩

/-! ### C6: the url normalizer -/

/-- C6 counterexample: norm_url strips the href first, so for an href
with trailing whitespace that starts with a double slash the result is
not the raw href with the https scheme prepended, contradicting the claim
read over every href string. -/
theorem C6_counterexample :
    pyStartsWith "//x " "//" = true ∧ norm_url "//x " ≠ "https:" ++ "//x " := by
  refine ⟨by decide, by decide⟩

/-- C6 (amended): norm_url always returns, and equals the case cascade of
the specification applied to the whitespace-stripped href; on hrefs with
no surrounding whitespace the four cases read exactly as the claim states
them. -/
theorem C6_norm_url_cascade (href : String) :
    norm_url href = normCascadeSpec (pyStrip href) ∧
    (pyStrip href = href →
      (pyStartsWith href "//" = true → norm_url href = "https:" ++ href) ∧
      (pyStartsWith href "//" = false → pyStartsWith href "/" = true →
        norm_url href = BASE_URL ++ href) ∧
      (pyStartsWith href "//" = false → pyStartsWith href "/" = false →
        pyStartsWith href "http" = true → norm_url href = href) ∧
      (pyStartsWith href "//" = false → pyStartsWith href "/" = false →
        pyStartsWith href "http" = false → norm_url href = BASE_URL ++ "/" ++ href)) := by
  refine ⟨rfl, fun hs => ⟨?_, ?_, ?_, ?_⟩⟩
  · intro h1
    simp [norm_url, hs, h1]
  · intro h1 h2
    simp [norm_url, hs, h1, h2]
  · intro h1 h2 h3
    simp [norm_url, hs, h1, h2, h3]
  · intro h1 h2 h3
    simp [norm_url, hs, h1, h2, h3]

/-- Witness for C6: a plain absolute-path href goes through the second
case of the cascade. -/
theorem C6_norm_url_cascade_witness :
    norm_url "/relative/path" = BASE_URL ++ "/relative/path" :=
  ((C6_norm_url_cascade "/relative/path").2 (by decide)).2.1 (by decide) (by decide)

/-! ### C4: the enricher recovers from fetch failures -/

/-- C4: when the fetch of a detail page fails the enricher returns the
pair of empty strings, and the run continues: the assembled document has
one article per discovered candidate regardless of enrichment failures. -/
theorem C4_enricher_recovers (oracle : String → Option HNode) (u : String)
    (doc : HNode) (limit : Int) (now : String) :
    (oracle u = none → fetch_article_details (oracle u) = ("", "")) ∧
    (fetch_toyota_news oracle doc limit now).articles.length =
      (articleLinks doc limit).length := by
  constructor
  · intro h
    rw [h]
    rfl
  · simp [fetch_toyota_news]

/-- Witness for C4: a failing oracle yields the empty pair. -/
theorem C4_enricher_recovers_witness :
    fetch_article_details (failOracle "https://media.toyota.ca/x") = ("", "") :=
  (C4_enricher_recovers failOracle "https://media.toyota.ca/x" docNoLink 5 "ts").1 rfl

/-! ### C5: the description field of the output -/

/-- C5 counterexample: on a run over docW where every detail page is
empty, the enricher finds no description, yet the assembled description
field is the empty string, not a placeholder sentinel; this contradicts
the claim that a placeholder (not merely the empty string) is used. -/
theorem C5_counterexample :
    (fetch_article_details (oracleC5 "https://media.toyota.ca/releases/2024/x.html")).2
        = "" ∧
    ((fetch_toyota_news oracleC5 docW 5 "ts").articles.map fun a => a.description)
        = [""] := by
  refine ⟨by decide, by decide⟩

/-- C5 (amended): every assembled description has at most 600 characters,
and when the enricher found no description the field is the empty string. -/
theorem C5_description_bounded (oracle : String → Option HNode) (doc : HNode)
    (limit : Int) (now : String) :
    ∀ a ∈ (fetch_toyota_news oracle doc limit now).articles,
      a.description.length ≤ 600 ∧
      ((fetch_article_details (oracle a.url)).2 = "" → a.description = "") := by
  intro a ha
  simp only [fetch_toyota_news, List.mem_map] at ha
  obtain ⟨t, -, rfl⟩ := ha
  simp only [mkItem]
  by_cases h : (fetch_article_details (oracle t.2.2)).2 = ""
  · simp [h]
  · refine ⟨?_, fun hc => absurd hc h⟩
    simp only [h, bne_iff_ne, ne_eq, not_false_eq_true, if_true]
    calc ((fetch_article_details (oracle t.2.2)).2.take 600).length
        = ((fetch_article_details (oracle t.2.2)).2.data.take 600).length := by
          rw [String.take_eq]
          rfl
      _ ≤ 600 := List.length_take_le _ _

/-- Witness for C5 (amended), at the concrete run over docW. -/
theorem C5_description_bounded_witness :
    articleW.description.length ≤ 600 :=
  (C5_description_bounded oracleC5 docW 5 "ts" articleW (by decide)).1

/-! ### Helper lemmas about the extraction loops -/

/-- The first description loop is the first paragraph text of length at
least 60. -/
lemma firstLongText_eq_find (ts : List String) :
    firstLongText ts =
      match ts.find? (fun t => 60 ≤ t.length) with
      | some t => t
      | none => "" := by
  induction ts with
  | nil => rfl
  | cons t ts ih =>
    by_cases h : 60 ≤ t.length
    · simp [firstLongText, List.find?_cons_of_pos, h]
    · rw [firstLongText, if_neg h, List.find?_cons_of_neg, ih]
      simpa using h

/-- The second description loop is the first non-empty paragraph text. -/
lemma firstNonemptyText_eq_find (ts : List String) :
    firstNonemptyText ts =
      match ts.find? (fun t => t != "") with
      | some t => t
      | none => "" := by
  induction ts with
  | nil => rfl
  | cons t ts ih =>
    by_cases h : t = ""
    · subst h
      rw [firstNonemptyText, if_neg (by simp), List.find?_cons_of_neg, ih]
      simp
    · simp [firstNonemptyText, List.find?_cons_of_pos, h]

/-- A title accepted by Method 1 has length at least 5. -/
lemma titleFor_length (doc : HNode) (par l : Path) (t : String)
    (ht : titleFor doc par l = some t) : 5 ≤ t.length := by
  have key : ∀ t1 : String,
      (if t1 == "" || t1.length < 5 then (none : Option String) else some t1) = some t →
      5 ≤ t.length := by
    intro t1 h
    split at h
    · cases h
    · next hc =>
      injection h with h
      subst h
      simp only [Bool.or_eq_true, beq_iff_eq, decide_eq_true_eq, not_or] at hc
      omega
  exact key _ ht

/-- The date climb of Method 2 yields either the sentinel Recent or a
stripped DATE_RE match of some ancestor text. -/
lemma dateClimb_spec (doc : HNode) :
    ∀ (k : Nat) (op : Option Path),
      dateClimb doc op k = "Recent" ∨
        ∃ s m, dateSearch s = some m ∧ dateClimb doc op k = pyStrip m := by
  intro k
  induction k with
  | zero => intro op; cases op <;> exact Or.inl rfl
  | succ k ih =>
    intro op
    cases op with
    | none => exact Or.inl rfl
    | some par =>
      cases hm : dateSearch (getTextRaw doc par) with
      | none =>
        have h := ih (parentPath par)
        simpa [dateClimb, hm] using h
      | some m =>
        right
        exact ⟨getTextRaw doc par, m, hm, by simp [dateClimb, hm]⟩

/-- Appending a freshly seen url preserves the two accumulator
invariants of both extraction loops. -/
lemma emit_update (tr : Triple) {results : List Triple} {seen : List String}
    (hsub : ∀ t ∈ results, t.2.2 ∈ seen)
    (hnd : (results.map fun t => t.2.2).Nodup)
    (hnew : tr.2.2 ∉ seen) :
    (∀ t ∈ results ++ [tr], t.2.2 ∈ seen ++ [tr.2.2]) ∧
    ((results ++ [tr]).map fun t => t.2.2).Nodup := by
  constructor
  · intro t ht
    rcases List.mem_append.1 ht with h | h
    · exact List.mem_append.2 (Or.inl (hsub t h))
    · simp only [List.mem_singleton] at h
      subst h
      simp
  · rw [List.map_append, List.nodup_append]
    refine ⟨hnd, by simp, ?_⟩
    intro u hu hmem
    simp only [List.map_cons, List.map_nil, List.mem_singleton] at hmem
    subst hmem
    obtain ⟨t, ht, hte⟩ := List.mem_map.1 hu
    exact hnew (hte ▸ hsub t ht)

/-- Invariants of the Method 2 loop: the produced urls are duplicate
free, every produced url is in the final seen set, the seen set only
grows, and every produced candidate beyond the initial accumulator has a
fresh url, a title of length at least 5 and a date that is Recent or a
stripped DATE_RE match. -/
lemma pass2Go_inv (doc : HNode) (limit : Int) :
    ∀ (links : List Path) (results : List Triple) (seen : List String),
      (∀ t ∈ results, t.2.2 ∈ seen) →
      ((results.map fun t => t.2.2).Nodup) →
      (((pass2Go doc limit links results seen).1.map fun t => t.2.2).Nodup ∧
       (∀ t ∈ (pass2Go doc limit links results seen).1,
          t.2.2 ∈ (pass2Go doc limit links results seen).2) ∧
       (∀ u ∈ seen, u ∈ (pass2Go doc limit links results seen).2) ∧
       (∀ t ∈ (pass2Go doc limit links results seen).1,
          t ∈ results ∨
            (t.2.2 ∉ seen ∧ 5 ≤ t.2.1.length ∧
              (t.1 = "Recent" ∨ ∃ s m, dateSearch s = some m ∧ t.1 = pyStrip m)))) := by
  intro links
  induction links with
  | nil =>
    intro results seen hsub hnd
    exact ⟨hnd, fun t ht => hsub t ht, fun u hu => hu, fun t ht => Or.inl ht⟩
  | cons l rest ih =>
    intro results seen hsub hnd
    simp only [pass2Go]
    split
    · exact ⟨hnd, fun t ht => hsub t ht, fun u hu => hu, fun t ht => Or.inl ht⟩
    · split
      · exact ih results seen hsub hnd
      · split
        · exact ih results seen hsub hnd
        · next hfresh =>
          split
          · exact ih results seen hsub hnd
          · next htitle =>
            obtain ⟨hsub2, hnd2⟩ :=
              emit_update (dateClimb doc (parentPath l) 4,
                pass2Title doc l (norm_url (pyStrip (hrefOf doc l))),
                norm_url (pyStrip (hrefOf doc l))) hsub hnd hfresh
            obtain ⟨h1, h2, h3, h4⟩ := ih _ _ hsub2 hnd2
            refine ⟨h1, h2, fun u hu => h3 u (List.mem_append.2 (Or.inl hu)), ?_⟩
            intro t ht
            rcases h4 t ht with hin | hnotin
            · rcases List.mem_append.1 hin with h | h
              · exact Or.inl h
              · simp only [List.mem_singleton] at h
                subst h
                refine Or.inr ⟨hfresh, ?_, ?_⟩
                · simp only [Bool.or_eq_true, beq_iff_eq, decide_eq_true_eq,
                    not_or] at htitle
                  have h5 : ¬ (pass2Title doc l (norm_url (pyStrip (hrefOf doc l)))).length < 5 :=
                    htitle.2
                  simpa using Nat.le_of_not_lt h5
                · exact dateClimb_spec doc 4 (parentPath l)
            · exact Or.inr ⟨fun hmem => hnotin.1 (List.mem_append.2 (Or.inl hmem)),
                hnotin.2.1, hnotin.2.2⟩

/-! ### C9: the fallback dates -/

/-- C9: every candidate of the broad fallback pass carries either a
stripped DATE_RE match found in the text of an ancestor, or exactly the
sentinel Recent. -/
theorem C9_fallback_dates (doc : HNode) (seen : List String) (limit : Int) :
    ∀ t ∈ (extract_all_release_links doc seen limit).1,
      t.1 = "Recent" ∨ ∃ s m, dateSearch s = some m ∧ t.1 = pyStrip m := by
  intro t ht
  obtain ⟨-, -, -, h4⟩ :=
    pass2Go_inv doc limit (releaseLinks doc) [] seen (by simp) (by simp)
  rcases h4 t ht with h | h
  · cases h
  · exact h.2.2

/-- Witness for C9: the undated release link of doc9 is emitted with the
sentinel date. -/
theorem C9_fallback_dates_witness :
    triple9.1 = "Recent" ∨ ∃ s m, dateSearch s = some m ∧ triple9.1 = pyStrip m :=
  C9_fallback_dates doc9 [] 5 triple9 (by decide)

/-! ### C8: the description selection -/

/-- C8: the enricher chooses the paragraph set through the selector
cascade (article p, else entry-content p, else release p, else all
paragraphs, the first non-empty set winning) and within that set returns
the first paragraph text of length at least 60, else the first non-empty
paragraph text; on a page whose article holds a 45 character first
paragraph and an 80 character second paragraph it returns the 80
character text. -/
theorem C8_description_selection (doc : HNode) :
    (descOf doc =
      match ((descCandidates doc).map (getTextSep doc)).find? (fun t => 60 ≤ t.length) with
      | some t => t
      | none =>
        (((descCandidates doc).map (getTextSep doc)).find? (fun t => t != "")).getD "") ∧
    (selectPUnder doc (fun a => isTag doc a "article") ≠ [] →
      descCandidates doc = selectPUnder doc (fun a => isTag doc a "article")) ∧
    (selectPUnder doc (fun a => isTag doc a "article") = [] →
      selectPUnder doc (fun a => hasClass doc a "entry-content") ≠ [] →
      descCandidates doc = selectPUnder doc (fun a => hasClass doc a "entry-content")) ∧
    (selectPUnder doc (fun a => isTag doc a "article") = [] →
      selectPUnder doc (fun a => hasClass doc a "entry-content") = [] →
      selectPUnder doc (fun a => hasClass doc a "release") ≠ [] →
      descCandidates doc = selectPUnder doc (fun a => hasClass doc a "release")) ∧
    (selectPUnder doc (fun a => isTag doc a "article") = [] →
      selectPUnder doc (fun a => hasClass doc a "entry-content") = [] →
      selectPUnder doc (fun a => hasClass doc a "release") = [] →
      descCandidates doc = allP doc) ∧
    descOf docP = s80 := by
  refine ⟨?_, ?_, ?_, ?_, ?_, by decide⟩
  · simp only [descOf]
    rw [firstLongText_eq_find]
    cases hf : ((descCandidates doc).map (getTextSep doc)).find? (fun t => 60 ≤ t.length) with
    | none =>
      rw [if_pos (by simp), firstNonemptyText_eq_find]
      cases hg : ((descCandidates doc).map (getTextSep doc)).find? (fun t => t != "") <;> simp
    | some t =>
      have hp := List.find?_some hf
      simp only [decide_eq_true_eq] at hp
      have hne : t ≠ "" := by
        intro h
        subst h
        exact absurd hp (by decide)
      simp [hne]
  · intro h1
    simp [descCandidates, h1]
  · intro h1 h2
    simp [descCandidates, h1, h2]
  · intro h1 h2 h3
    simp [descCandidates, h1, h2, h3]
  · intro h1 h2 h3
    simp [descCandidates, h1, h2, h3]

/-- Witness for C8: on docP the first selector of the cascade wins. -/
theorem C8_description_selection_witness :
    descCandidates docP = selectPUnder docP (fun a => isTag docP a "article") :=
  (C8_description_selection docP).2.1 (by decide)

/-! ### The Method 1 loop invariant -/

/-- Invariants of the Method 1 loop: the produced urls are duplicate
free, every produced url is in the final seen set, the seen set only
grows, and every produced candidate beyond the initial accumulator has a
title of length at least 5. -/
lemma pass1Go_inv (doc : HNode) (limit : Int) :
    ∀ (nodes : List Path) (results : List Triple) (seen : List String),
      (∀ t ∈ results, t.2.2 ∈ seen) →
      ((results.map fun t => t.2.2).Nodup) →
      (((pass1Go doc limit nodes results seen).1.map fun t => t.2.2).Nodup ∧
       (∀ t ∈ (pass1Go doc limit nodes results seen).1,
          t.2.2 ∈ (pass1Go doc limit nodes results seen).2) ∧
       (∀ u ∈ seen, u ∈ (pass1Go doc limit nodes results seen).2) ∧
       (∀ t ∈ (pass1Go doc limit nodes results seen).1,
          t ∈ results ∨ 5 ≤ t.2.1.length)) := by
  intro nodes
  induction nodes with
  | nil =>
    intro results seen hsub hnd
    exact ⟨hnd, fun t ht => hsub t ht, fun u hu => hu, fun t ht => Or.inl ht⟩
  | cons p rest ih =>
    intro results seen hsub hnd
    simp only [pass1Go]
    split
    · exact ih results seen hsub hnd
    · split
      · exact ih results seen hsub hnd
      · split
        · exact ih results seen hsub hnd
        · split
          · exact ih results seen hsub hnd
          · split
            · exact ih results seen hsub hnd
            · next hfresh =>
              split
              · exact ih results seen hsub hnd
              · next title htl =>
                obtain ⟨hsub2, hnd2⟩ :=
                  emit_update (_, title, _) hsub hnd hfresh
                have hlen : 5 ≤ title.length := titleFor_length _ _ _ _ htl
                split
                · refine ⟨hnd2, hsub2, fun u hu => List.mem_append.2 (Or.inl hu), ?_⟩
                  intro t ht
                  rcases List.mem_append.1 ht with h | h
                  · exact Or.inl h
                  · simp only [List.mem_singleton] at h
                    subst h
                    exact Or.inr hlen
                · obtain ⟨h1, h2, h3, h4⟩ := ih _ _ hsub2 hnd2
                  refine ⟨h1, h2, fun u hu => h3 u (List.mem_append.2 (Or.inl hu)), ?_⟩
                  intro t ht
                  rcases h4 t ht with hin | hor
                  · rcases List.mem_append.1 hin with h | h
                    · exact Or.inl h
                    · simp only [List.mem_singleton] at h
                      subst h
                      exact Or.inr hlen
                  · exact Or.inr hor

/-! ### C1: no duplicate urls across the two passes -/

/-- C1: across one run, the urls of the candidates emitted by Method 1
followed by Method 2 (with the claimed set handed over) contain no
duplicates. -/
theorem C1_candidate_urls_nodup (doc : HNode) (limit : Int) :
    ((articleLinks doc limit).map fun t => t.2.2).Nodup := by
  obtain ⟨hnd1, hsub1, -, -⟩ :=
    pass1Go_inv doc limit (dateTextNodes doc) [] [] (by simp) (by simp)
  simp only [articleLinks, extract_release_links_by_date, extract_all_release_links]
  split
  · rw [List.map_append, List.nodup_append]
    obtain ⟨hnd2, -, -, h4⟩ :=
      pass2Go_inv doc (limit - ((pass1Go doc limit (dateTextNodes doc) [] []).1.length : Int))
        (releaseLinks doc) [] (pass1Go doc limit (dateTextNodes doc) [] []).2
        (by simp) (by simp)
    refine ⟨hnd1, hnd2, ?_⟩
    intro u hu1 hu2
    obtain ⟨t1, ht1, hte1⟩ := List.mem_map.1 hu1
    obtain ⟨t2, ht2, hte2⟩ := List.mem_map.1 hu2
    rcases h4 t2 ht2 with h | h
    · cases h
    · apply h.1
      rw [hte2, ← hte1]
      exact hsub1 t1 ht1
  · exact hnd1

/-! ### C3: every emitted title has length at least 5 -/

/-- C3: every candidate emitted by the date-based pass, by the fallback
pass, or by the two passes combined, carries a title of length at least
5; candidates that would fail this are discarded, never emitted. -/
theorem C3_titles_min_length (doc : HNode) (limit : Int) (seen : List String) :
    (∀ t ∈ (extract_release_links_by_date doc limit).1, 5 ≤ t.2.1.length) ∧
    (∀ t ∈ (extract_all_release_links doc seen limit).1, 5 ≤ t.2.1.length) ∧
    (∀ t ∈ articleLinks doc limit, 5 ≤ t.2.1.length) := by
  obtain ⟨-, -, -, h14⟩ :=
    pass1Go_inv doc limit (dateTextNodes doc) [] [] (by simp) (by simp)
  obtain ⟨-, -, -, h24⟩ :=
    pass2Go_inv doc limit (releaseLinks doc) [] seen (by simp) (by simp)
  refine ⟨?_, ?_, ?_⟩
  · intro t ht
    rcases h14 t ht with h | h
    · cases h
    · exact h
  · intro t ht
    rcases h24 t ht with h | h
    · cases h
    · exact h.2.1
  · intro t ht
    simp only [articleLinks, extract_release_links_by_date,
      extract_all_release_links] at ht
    split at ht
    · rcases List.mem_append.1 ht with h | h
      · rcases h14 t h with h2 | h2
        · cases h2
        · exact h2
      · obtain ⟨-, -, -, h24b⟩ :=
          pass2Go_inv doc
            (limit - ((pass1Go doc limit (dateTextNodes doc) [] []).1.length : Int))
            (releaseLinks doc) [] (pass1Go doc limit (dateTextNodes doc) [] []).2
            (by simp) (by simp)
        rcases h24b t h with h2 | h2
        · cases h2
        · exact h2.2.1
    · rcases h14 t ht with h2 | h2
      · cases h2
      · exact h2

/-- Witness for C3: the candidate found on docW has a long enough title. -/
theorem C3_titles_min_length_witness : 5 ≤ tripleW.2.1.length :=
  (C3_titles_min_length docW 5 []).2.2 tripleW (by decide)

/-! ### C2: the link search priority of Method 1 -/

/-- C2: for a date node with parent par, the associated link is searched
in the order: a descendant link of the parent, else the first link with a
truthy href among the 6 elements following the parent in document order,
else a descendant link of the grandparent; and when the whole search
fails the date node is discarded and the loop continues with the next
node. -/
theorem C2_link_search_priority (doc : HNode) (p par : Path) (limit : Int)
    (rest : List Path) (results : List Triple) (seen : List String) :
    (∀ l, parentLink doc par = some l → findLink doc par = some l) ∧
    (parentLink doc par = none →
      ∀ l, forwardLink doc par = some l → findLink doc par = some l) ∧
    (parentLink doc par = none → forwardLink doc par = none →
      findLink doc par = grandLink doc par) ∧
    ((parentPath p).bind (findLink doc) = none →
      pass1Go doc limit (p :: rest) results seen = pass1Go doc limit rest results seen) := by
  refine ⟨?_, ?_, ?_, ?_⟩
  · intro l hl
    simp [findLink, hl]
  · intro h0 l hl
    simp [findLink, h0, hl]
  · intro h0 h1
    simp [findLink, h0, h1]
  · intro hnone
    rcases ht : textAt doc p with _ | s
    · simp [pass1Go, ht]
    · rcases hd : dateSearch s with _ | m
      · simp [pass1Go, ht, hd]
      · rcases hp : parentPath p with _ | par0
        · simp [pass1Go, ht, hd, hp]
        · have hfl : findLink doc par0 = none := by simpa [hp] using hnone
          simp [pass1Go, ht, hd, hp, hfl]

/-- Witness for C2: on the link-free page docNoLink the date node is
discarded and the pass produces nothing. -/
theorem C2_link_search_priority_witness :
    pass1Go docNoLink 5 [[0, 0]] [] [] = ([], []) := by
  have h := (C2_link_search_priority docNoLink [0, 0] [0] 5 [] [] []).2.2.2 (by decide)
  rw [h]
  rfl

/-! ### C10: the limit is checked only after appending -/

/-- A date node that cannot emit is skipped and the loop continues. -/
lemma pass1Go_skip (doc : HNode) (limit : Int) (p : Path) (rest : List Path)
    (results : List Triple) (seen : List String)
    (h : emitsFresh doc p = false) :
    pass1Go doc limit (p :: rest) results seen = pass1Go doc limit rest results seen := by
  rcases ht : textAt doc p with _ | s
  · simp [pass1Go, ht]
  · rcases hd : dateSearch s with _ | m
    · simp [pass1Go, ht, hd]
    · rcases hp : parentPath p with _ | par
      · simp [pass1Go, ht, hd, hp]
      · rcases hl : findLink doc par with _ | l
        · simp [pass1Go, ht, hd, hp, hl]
        · by_cases hs : norm_url (pyStrip (hrefOf doc l)) ∈ seen
          · simp [pass1Go, ht, hd, hp, hl, hs]
          · rcases htl : titleFor doc par l with _ | title
            · simp [pass1Go, ht, hd, hp, hl, hs, htl]
            · simp [emitsFresh, ht, hd, hp, hl, htl] at h

/-- With a non-positive limit, the first emitting date node produces the
single candidate of the run. -/
lemma pass1Go_first (doc : HNode) (limit : Int) (hlim : limit ≤ 0) :
    ∀ nodes : List Path,
      (∃ p ∈ nodes, emitsFresh doc p = true) →
      (pass1Go doc limit nodes [] []).1.length = 1 := by
  intro nodes
  induction nodes with
  | nil =>
    rintro ⟨p, hp, -⟩
    cases hp
  | cons p rest ih =>
    rintro ⟨q, hq, hqe⟩
    by_cases he : emitsFresh doc p = true
    · rcases ht : textAt doc p with _ | s
      · simp [emitsFresh, ht] at he
      · rcases hd : dateSearch s with _ | m
        · simp [emitsFresh, ht, hd] at he
        · rcases hp2 : parentPath p with _ | par
          · simp [emitsFresh, ht, hd, hp2] at he
          · rcases hl : findLink doc par with _ | l
            · simp [emitsFresh, ht, hd, hp2, hl] at he
            · rcases htl : titleFor doc par l with _ | title
              · simp [emitsFresh, ht, hd, hp2, hl, htl] at he
              · have hc : limit ≤ (1 : Int) := by omega
                simp [pass1Go, ht, hd, hp2, hl, htl, hc]
    · rw [pass1Go_skip doc limit p rest [] [] (by simpa using he)]
      apply ih
      rcases List.mem_cons.1 hq with rfl | hq2
      · exact absurd hqe he
      · exact ⟨q, hq2, hqe⟩

/-- Length bound of the Method 1 loop: at most one candidate beyond the
limit threshold can ever be appended. -/
lemma pass1Go_len (doc : HNode) (limit : Int) :
    ∀ (nodes : List Path) (results : List Triple) (seen : List String),
      ((pass1Go doc limit nodes results seen).1.length : Int) ≤
        max limit ((results.length : Int) + 1) := by
  intro nodes
  induction nodes with
  | nil =>
    intro results seen
    simp only [pass1Go]
    have h := le_max_right limit ((results.length : Int) + 1)
    omega
  | cons p rest ih =>
    intro results seen
    simp only [pass1Go]
    split
    · exact ih results seen
    · split
      · exact ih results seen
      · split
        · exact ih results seen
        · split
          · exact ih results seen
          · split
            · exact ih results seen
            · split
              · exact ih results seen
              · split
                · next hstop =>
                  simp only [List.length_append, List.length_cons, List.length_nil]
                  have h := le_max_right limit ((results.length : Int) + 1)
                  push_cast
                  omega
                · next hgo =>
                  refine le_trans (ih _ _) ?_
                  simp only [List.length_append, List.length_cons, List.length_nil] at hgo ⊢
                  push_cast at hgo ⊢
                  omega

/-- C10: the result count of Method 1 never exceeds max(limit, 1), and
with a non-positive limit a document holding at least one qualifying
date node still yields exactly one candidate, because the limit is
checked only after a candidate has been appended. -/
theorem C10_limit_checked_after_append (doc : HNode) (limit : Int) :
    ((extract_release_links_by_date doc limit).1.length : Int) ≤ max limit 1 ∧
    (limit ≤ 0 → (∃ p ∈ dateTextNodes doc, emitsFresh doc p = true) →
      (extract_release_links_by_date doc limit).1.length = 1) := by
  constructor
  · have h := pass1Go_len doc limit (dateTextNodes doc) [] []
    simpa using h
  · intro hlim hex
    exact pass1Go_first doc limit hlim (dateTextNodes doc) hex

/-- Witness for C10: on docW with limit 0 the pass emits one candidate. -/
theorem C10_limit_checked_after_append_witness :
    (extract_release_links_by_date docW 0).1.length = 1 :=
  (C10_limit_checked_after_append docW 0).2 (by decide)
    ⟨[0, 0, 0], by decide, by decide⟩

end Scraper
